import Mathlib

/-!
# Verification of the PulseDJ-X playback core

Shallow embedding of the beat-grid, quantizer, BPM scan-section selection,
loop-crossfade decision, speed setter, loop setter and the render-block
control flow of `DJAudioPlayer` / `GlobalBeatGrid` / `BpmAnalyzer`,
with theorems settling the specification claims about them.

`double` arithmetic is embedded as exact rational arithmetic (all the
concrete values involved in the claims are dyadic, so the embedding is
exact on them); C `int` values are embedded as `ℤ`.
-/

namespace PulseDJ

/-- `std::round`: round half away from zero, as an integer result. -/
def croundQ (x : ℚ) : ℤ :=
  if 0 ≤ x then ⌊x + 1/2⌋ else ⌈x - 1/2⌉

/-- `std::clamp(v, lo, hi)`: `v < lo ? lo : (hi < v ? hi : v)`. -/
def cclamp (v lo hi : ℚ) : ℚ :=
  if v < lo then lo else if hi < v then hi else v

/-- C cast `(int)x` for a `double` `x`: truncation toward zero. -/
def ctruncQ (x : ℚ) : ℤ :=
  if 0 ≤ x then ⌊x⌋ else ⌈x⌉

/-- Default of `DJAudioPlayer::trackBpm` (`double trackBpm{120.0}`). -/
def trackBpmDefault : ℚ := 120

/-- Default of `DJAudioPlayer::trackLengthSec` (`double trackLengthSec{0.0}`). -/
def trackLengthSecDefault : ℚ := 0

/-- Default of `DJAudioPlayer::currentSpeed` (`double currentSpeed{1.0}`). -/
def currentSpeedDefault : ℚ := 1

/-- `DJAudioPlayer::quantizePosition` (DJAudioPlayer.cpp:1223-1242):
returns the input unchanged when quantization is disabled or the stored
bpm is not positive; otherwise snaps to the rounded beat number relative
to the first beat offset and clamps into `[0, trackLengthSec]`. -/
def quantizePosition (quantizeEnabled : Bool) (trackBpm trackFirstBeatOffset trackLengthSec positionSec : ℚ) : ℚ :=
  if quantizeEnabled = false ∨ trackBpm ≤ 0 then positionSec
  else
    let beatLengthSec := 60 / trackBpm
    let relativePos := positionSec - trackFirstBeatOffset
    let beatNumber : ℤ := croundQ (relativePos / beatLengthSec)
    let quantizedPos := trackFirstBeatOffset + (beatNumber : ℚ) * beatLengthSec
    cclamp quantizedPos 0 trackLengthSec

/-- Forward loop of `GlobalBeatGrid::updateBeatPositions`:
`for (beatTime = firstBeatOffset; beatTime <= trackLength; beatTime += beatPeriod)
   if (beatTime >= 0.0) push_back(beatTime);`
embedded with an explicit fuel counter (one fuel per loop iteration). -/
def beatFwdAux (beatPeriod trackLength : ℚ) : ℕ → ℚ → List ℚ
  | 0, _ => []
  | n + 1, beatTime =>
    if beatTime ≤ trackLength then
      (if 0 ≤ beatTime then [beatTime] else []) ++ beatFwdAux beatPeriod trackLength n (beatTime + beatPeriod)
    else []

/-- Backward loop of `GlobalBeatGrid::updateBeatPositions`:
`for (beatTime = firstBeatOffset - beatPeriod; beatTime >= -beatPeriod && beatTime >= 0.0;
      beatTime -= beatPeriod) insert(begin(), beatTime);`
with the already-built list as accumulator (insert-at-front = cons). -/
def beatBwdAux (beatPeriod : ℚ) : ℕ → ℚ → List ℚ → List ℚ
  | 0, _, acc => acc
  | n + 1, beatTime, acc =>
    if -beatPeriod ≤ beatTime ∧ 0 ≤ beatTime then
      beatBwdAux beatPeriod n (beatTime - beatPeriod) (beatTime :: acc)
    else acc

/-- Fuel that exactly covers the iterations of the forward loop:
for `0 < p` the loop body runs for `beatTime = t + k*p ≤ L`, i.e.
`⌊(L - t)/p⌋ + 1` times when `t ≤ L` and `0` times otherwise. -/
def beatFwdFuel (beatPeriod trackLength beatTime : ℚ) : ℕ :=
  (⌊(trackLength - beatTime) / beatPeriod⌋ + 1).toNat

/-- Fuel that exactly covers the iterations of the backward loop:
for `0 < p` the loop body runs while `beatTime = t - k*p ≥ 0`, i.e.
`⌊t/p⌋ + 1` times when `t ≥ 0` and `0` times otherwise. -/
def beatBwdFuel (beatPeriod beatTime : ℚ) : ℕ :=
  (⌊beatTime / beatPeriod⌋ + 1).toNat

/-- `GlobalBeatGrid::updateBeatPositions` (GlobalBeatGrid.h:80-104), the
seconds component: clears and returns empty when `bpm ≤ 0` or
`trackLength ≤ 0`; otherwise generates beats forward from
`firstBeatOffset` in steps of `60/bpm` up to `trackLength`, then walks
backward from `firstBeatOffset - beatPeriod` prepending beats while they
stay nonnegative. `GlobalBeatGrid::setBeatGridParams` stores the three
parameters and calls exactly this derivation. -/
def updateBeatPositions (bpm firstBeatOffset trackLength : ℚ) : List ℚ :=
  if bpm ≤ 0 ∨ trackLength ≤ 0 then []
  else
    let beatPeriod := 60 / bpm
    let fwd := beatFwdAux beatPeriod trackLength (beatFwdFuel beatPeriod trackLength firstBeatOffset) firstBeatOffset
    beatBwdAux beatPeriod (beatBwdFuel beatPeriod (firstBeatOffset - beatPeriod)) (firstBeatOffset - beatPeriod) fwd

/-! ## Lemmas about the beat-grid generation loops -/

theorem beatFwdAux_nonneg (p L : ℚ) :
    ∀ (n : ℕ) (t : ℚ), ∀ x ∈ beatFwdAux p L n t, 0 ≤ x := by
  intro n
  induction n with
  | zero => intro t x hx; simp [beatFwdAux] at hx
  | succ n ih =>
    intro t x hx
    by_cases hL : t ≤ L
    · simp only [beatFwdAux, if_pos hL, List.mem_append] at hx
      rcases hx with hx | hx
      · by_cases h0 : 0 ≤ t
        · simp only [if_pos h0, List.mem_singleton] at hx
          exact hx ▸ h0
        · simp [if_neg h0] at hx
      · exact ih (t + p) x hx
    · simp [beatFwdAux, if_neg hL] at hx

theorem beatFwdAux_head (p L : ℚ) :
    ∀ (n : ℕ) (t : ℚ), 0 ≤ t → ∀ x, (beatFwdAux p L n t).head? = some x → x = t := by
  intro n
  induction n with
  | zero => intro t _ x hx; simp [beatFwdAux] at hx
  | succ n _ =>
    intro t h0 x hx
    by_cases hL : t ≤ L
    · simp only [beatFwdAux, if_pos hL, if_pos h0, List.singleton_append, List.head?_cons,
        Option.some.injEq] at hx
      exact hx.symm
    · simp [beatFwdAux, if_neg hL] at hx

theorem beatFwdAux_chain (p L : ℚ) (hp : 0 ≤ p) :
    ∀ (n : ℕ) (t : ℚ), 0 ≤ t →
      List.Chain' (fun a b => b = a + p) (beatFwdAux p L n t) := by
  intro n
  induction n with
  | zero => intro t _; simp [beatFwdAux]
  | succ n ih =>
    intro t h0
    by_cases hL : t ≤ L
    · simp only [beatFwdAux, if_pos hL, if_pos h0, List.singleton_append]
      rw [List.chain'_cons']
      refine ⟨fun b hb => ?_, ih (t + p) (by linarith)⟩
      exact beatFwdAux_head p L n (t + p) (by linarith) b (Option.mem_def.mp hb)
    · simp [beatFwdAux, if_neg hL]

theorem beatBwdAux_nonneg (p : ℚ) :
    ∀ (n : ℕ) (t : ℚ) (acc : List ℚ), (∀ x ∈ acc, 0 ≤ x) →
      ∀ x ∈ beatBwdAux p n t acc, 0 ≤ x := by
  intro n
  induction n with
  | zero => intro t acc hacc x hx; exact hacc x hx
  | succ n ih =>
    intro t acc hacc x hx
    by_cases hc : -p ≤ t ∧ 0 ≤ t
    · simp only [beatBwdAux, if_pos hc] at hx
      refine ih (t - p) (t :: acc) ?_ x hx
      intro y hy
      rcases List.mem_cons.mp hy with rfl | hy
      · exact hc.2
      · exact hacc y hy
    · simpa [beatBwdAux, if_neg hc] using hacc x (by simpa [beatBwdAux, if_neg hc] using hx)

theorem beatBwdAux_chain (p : ℚ) :
    ∀ (n : ℕ) (t : ℚ) (acc : List ℚ),
      List.Chain' (fun a b => b = a + p) acc →
      (∀ x, acc.head? = some x → x = t + p) →
      List.Chain' (fun a b => b = a + p) (beatBwdAux p n t acc) := by
  intro n
  induction n with
  | zero => intro t acc hacc _; exact hacc
  | succ n ih =>
    intro t acc hacc hhead
    by_cases hc : -p ≤ t ∧ 0 ≤ t
    · simp only [beatBwdAux, if_pos hc]
      refine ih (t - p) (t :: acc) ?_ ?_
      · rw [List.chain'_cons']
        exact ⟨fun b hb => hhead b (Option.mem_def.mp hb), hacc⟩
      · intro x hx
        simp only [List.head?_cons, Option.some.injEq] at hx
        rw [← hx]; ring
    · simpa [beatBwdAux, if_neg hc] using hacc

/-- C3: for every bpm > 0, trackLength > 0 and firstBeatOffset ≥ 0, the
sequence produced by `setBeatGridParams` / `updateBeatPositions` has
consecutive entries differing by exactly `60/bpm`, is strictly
increasing, and every entry is nonnegative; and for bpm ≤ 0 or
trackLength ≤ 0 the sequence is empty. -/
theorem updateBeatPositions_spacing (bpm off L : ℚ) :
    (0 < bpm → 0 < L → 0 ≤ off →
      List.Chain' (fun a b => b = a + 60 / bpm) (updateBeatPositions bpm off L) ∧
      List.Chain' (· < ·) (updateBeatPositions bpm off L) ∧
      ∀ x ∈ updateBeatPositions bpm off L, 0 ≤ x) ∧
    (bpm ≤ 0 ∨ L ≤ 0 → updateBeatPositions bpm off L = []) := by
  constructor
  · intro hb hL hoff
    have hguard : ¬(bpm ≤ 0 ∨ L ≤ 0) := by push_neg; exact ⟨hb, hL⟩
    have hp : 0 < 60 / bpm := by positivity
    rw [updateBeatPositions, if_neg hguard]
    have hfwd_chain := beatFwdAux_chain (60 / bpm) L (le_of_lt hp)
      (beatFwdFuel (60 / bpm) L off) off hoff
    have hfwd_head : ∀ x,
        (beatFwdAux (60 / bpm) L (beatFwdFuel (60 / bpm) L off) off).head? = some x →
          x = off - 60 / bpm + 60 / bpm := by
      intro x hx
      rw [beatFwdAux_head (60 / bpm) L _ off hoff x hx]; ring
    have hchain := beatBwdAux_chain (60 / bpm)
      (beatBwdFuel (60 / bpm) (off - 60 / bpm)) (off - 60 / bpm) _ hfwd_chain hfwd_head
    refine ⟨hchain, ?_, ?_⟩
    · exact hchain.imp (fun a b hab => by rw [hab]; linarith)
    · exact beatBwdAux_nonneg (60 / bpm) _ _ _ (beatFwdAux_nonneg (60 / bpm) L _ off)
  · intro h
    rw [updateBeatPositions, if_pos h]

theorem updateBeatPositions_spacing_witness :
    List.Chain' (· < ·) (updateBeatPositions 128 (1/2) (5/2)) ∧
      updateBeatPositions 0 (1/2) (5/2) = [] :=
  ⟨((updateBeatPositions_spacing 128 (1/2) (5/2)).1 (by decide) (by simp) (by simp)).2.1,
   (updateBeatPositions_spacing 0 (1/2) (5/2)).2 (Or.inl le_rfl)⟩

/-- Concrete evaluation of the beat grid for bpm = 128,
firstBeatOffset = 0.5 s, trackLength = 2.5 s (beat period 15/32 s):
the forward walk yields 0.5, 0.96875, 1.4375, 1.90625, 2.375 and the
backward walk prepends the leading partial beat 0.03125. -/
theorem updateBeatPositions_example_eval :
    updateBeatPositions 128 (1/2) (5/2) = [1/32, 1/2, 31/32, 23/16, 61/32, 19/8] := by
  have h1 : beatFwdFuel (15/32) (5/2) (1/2) = 5 := by
    rw [beatFwdFuel, show ((5/2 : ℚ) - 1/2) / (15/32) = 64/15 by norm_num,
      show (⌊(64/15 : ℚ)⌋ : ℤ) = 4 by rw [Int.floor_eq_iff]; norm_num]
    rfl
  have h2 : beatBwdFuel (15/32) (1/32) = 1 := by
    rw [beatBwdFuel, show ((1/32 : ℚ)) / (15/32) = 1/15 by norm_num,
      show (⌊(1/15 : ℚ)⌋ : ℤ) = 0 by rw [Int.floor_eq_iff]; norm_num]
    rfl
  rw [updateBeatPositions, if_neg (by norm_num)]
  norm_num [h1, h2, beatFwdAux, beatBwdAux]

/-- C2 counterexample: with bpm = 128, firstBeatOffset = 0.5 s,
trackLength = 2.5 s the produced sequence has six entries, not five:
the backward walk of `updateBeatPositions` prepends the leading partial
beat 0.5 − 60/128 = 0.03125 ≥ 0. -/
theorem updateBeatPositions_example_length_six :
    (updateBeatPositions 128 (1/2) (5/2)).length = 6 := by
  rw [updateBeatPositions_example_eval]; rfl

/-- C2 (amended): with bpm = 128, firstBeatOffset = 0.5 s,
trackLength = 2.5 s the setter produces the six-element sequence
[0.03125, 0.5, 0.96875, 1.4375, 1.90625, 2.375] — the five beats of the
claim (each within 0.001 of the quoted rounded values, period 15/32 s)
preceded by one leading partial-bar beat at 0.03125 s contributed by the
backward walk. -/
theorem updateBeatPositions_example_six_beats :
    updateBeatPositions 128 (1/2) (5/2) = [1/32, 1/2, 31/32, 23/16, 61/32, 19/8] ∧
    |(31/32 : ℚ) - 969/1000| < 1/1000 ∧ |(23/16 : ℚ) - 1438/1000| < 1/1000 ∧
    |(61/32 : ℚ) - 1906/1000| < 1/1000 ∧ (19/8 : ℚ) = 2375/1000 := by
  refine ⟨updateBeatPositions_example_eval, ?_, ?_, ?_, by norm_num⟩ <;>
    rw [abs_sub_lt_iff] <;> norm_num

/-! ## Lemmas about `std::round` on rationals -/

theorem croundQ_intCast (n : ℤ) : croundQ (n : ℚ) = n := by
  unfold croundQ
  by_cases h : (0 : ℚ) ≤ (n : ℚ)
  · rw [if_pos h, add_comm, Int.floor_add_int, show (⌊(1/2 : ℚ)⌋ : ℤ) = 0 by norm_num]
    ring
  · rw [if_neg h, show (n : ℚ) - 1/2 = -(1/2) + n by ring, Int.ceil_add_int,
      show (⌈(-(1/2) : ℚ)⌉ : ℤ) = 0 by norm_num]
    ring

theorem abs_croundQ_sub (x : ℚ) : |(croundQ x : ℚ) - x| ≤ 1/2 := by
  unfold croundQ
  by_cases h : (0 : ℚ) ≤ x
  · rw [if_pos h]
    have h1 : ((⌊x + 1/2⌋ : ℤ) : ℚ) ≤ x + 1/2 := Int.floor_le _
    have h2 : x + 1/2 < (⌊x + 1/2⌋ : ℤ) + 1 := Int.lt_floor_add_one _
    rw [abs_le]
    constructor <;> push_cast at h2 ⊢ <;> linarith
  · rw [if_neg h]
    have h1 : x - 1/2 ≤ ((⌈x - 1/2⌉ : ℤ) : ℚ) := Int.le_ceil _
    have h2 : ((⌈x - 1/2⌉ : ℤ) : ℚ) < (x - 1/2) + 1 := Int.ceil_lt_add_one _
    rw [abs_le]
    constructor <;> linarith

theorem croundQ_nearest (x : ℚ) (k : ℤ) : |(croundQ x : ℚ) - x| ≤ |(k : ℚ) - x| := by
  by_cases hk : k = croundQ x
  · rw [hk]
  · have hne : ((k - croundQ x : ℤ) : ℚ) ≠ 0 := by
      exact_mod_cast sub_ne_zero.mpr hk
    have hone : (1 : ℚ) ≤ |(k : ℚ) - (croundQ x : ℚ)| := by
      have := Int.one_le_abs (sub_ne_zero.mpr hk)
      calc (1 : ℚ) ≤ ((|k - croundQ x| : ℤ) : ℚ) := by exact_mod_cast this
        _ = |(k : ℚ) - (croundQ x : ℚ)| := by push_cast; rfl
    have htri : |(k : ℚ) - (croundQ x : ℚ)| ≤ |(k : ℚ) - x| + |x - (croundQ x : ℚ)| :=
      abs_sub_le _ _ _
    have hhalf := abs_croundQ_sub x
    rw [abs_sub_comm x ((croundQ x : ℚ))] at htri
    linarith

theorem croundQ_mono {x y : ℚ} (h : x ≤ y) : croundQ x ≤ croundQ y := by
  unfold croundQ
  by_cases hx : (0 : ℚ) ≤ x
  · rw [if_pos hx, if_pos (le_trans hx h)]
    exact Int.floor_le_floor (by linarith)
  · rw [if_neg hx]
    by_cases hy : (0 : ℚ) ≤ y
    · rw [if_pos hy]
      have h1 : ⌈x - 1/2⌉ ≤ 0 := Int.ceil_le.mpr (by push_neg at hx; push_cast; linarith)
      have h2 : 0 ≤ ⌊y + 1/2⌋ := Int.le_floor.mpr (by push_cast; linarith)
      omega
    · rw [if_neg hy]
      exact Int.ceil_le_ceil (by linarith)

/-! ## The quantizer as the clamped nearest point of the unbounded grid -/

/-- The pre-clamp value computed by `DJAudioPlayer::quantizePosition`:
`trackFirstBeatOffset + round(relativePos / beatLengthSec) * beatLengthSec`. -/
def gridSnap (trackBpm trackFirstBeatOffset positionSec : ℚ) : ℚ :=
  trackFirstBeatOffset +
    (croundQ ((positionSec - trackFirstBeatOffset) / (60 / trackBpm)) : ℚ) * (60 / trackBpm)

theorem quantizePosition_eq_cclamp (bpm off L t : ℚ) (hb : 0 < bpm) :
    quantizePosition true bpm off L t = cclamp (gridSnap bpm off t) 0 L := by
  rw [quantizePosition, if_neg]
  · rfl
  · push_neg
    exact ⟨by simp, by linarith⟩

theorem gridSnap_mono (bpm off : ℚ) (hb : 0 < bpm) {t₁ t₂ : ℚ} (h : t₁ ≤ t₂) :
    gridSnap bpm off t₁ ≤ gridSnap bpm off t₂ := by
  have hp : 0 < 60 / bpm := by positivity
  have hx : (t₁ - off) / (60 / bpm) ≤ (t₂ - off) / (60 / bpm) :=
    (div_le_div_iff_of_pos_right hp).mpr (by linarith)
  have hc : ((croundQ ((t₁ - off) / (60 / bpm)) : ℤ) : ℚ) ≤
      ((croundQ ((t₂ - off) / (60 / bpm)) : ℤ) : ℚ) := Int.cast_le.mpr (croundQ_mono hx)
  unfold gridSnap
  have := mul_le_mul_of_nonneg_right hc hp.le
  linarith

theorem gridSnap_idem (bpm off t : ℚ) (hb : 0 < bpm) :
    gridSnap bpm off (gridSnap bpm off t) = gridSnap bpm off t := by
  have hp : (60 / bpm) ≠ 0 := by positivity
  conv_lhs => rw [gridSnap]
  rw [show (gridSnap bpm off t - off) / (60 / bpm) =
        (croundQ ((t - off) / (60 / bpm)) : ℚ) by
      rw [gridSnap]; field_simp; ring]
  rw [croundQ_intCast, gridSnap]

/-- C1 counterexample: with quantize enabled, bpm = 120,
firstBeatOffset = 0, trackLength = 2.3 s, the beat timestamp sequence is
the non-empty [0, 0.5, 1, 1.5, 2], yet quantizing position 2.3 returns
2.3 (the nearest unbounded grid point 2.5 clamped to the track length),
which is not a member of the sequence — in particular not its closest
member 2. -/
theorem quantizePosition_ignores_beats_counterexample :
    updateBeatPositions 120 0 (23/10) = [0, 1/2, 1, 3/2, 2] ∧
    quantizePosition true 120 0 (23/10) (23/10) = 23/10 ∧
    (23/10 : ℚ) ∉ ([0, 1/2, 1, 3/2, 2] : List ℚ) := by
  refine ⟨?_, ?_, by norm_num⟩
  · have h1 : beatFwdFuel (1/2) (23/10) 0 = 5 := by
      rw [beatFwdFuel, show ((23/10 : ℚ) - 0) / (1/2) = 23/5 by norm_num,
        show (⌊(23/5 : ℚ)⌋ : ℤ) = 4 by rw [Int.floor_eq_iff]; norm_num]
      rfl
    have h2 : beatBwdFuel (1/2) (-(1/2)) = 0 := by
      rw [beatBwdFuel, show (-(1/2) : ℚ) / (1/2) = -1 by norm_num,
        show (⌊(-1 : ℚ)⌋ : ℤ) = -1 by norm_num]
      rfl
    rw [updateBeatPositions, if_neg (by norm_num)]
    norm_num [h1, h2, beatFwdAux, beatBwdAux]
  · norm_num [quantizePosition, croundQ, cclamp]

/-- C1 (amended): with quantization enabled and bpm > 0, the quantize
operation never consults the beat timestamp sequence; for every input it
returns the point of the unbounded beat grid
{firstBeatOffset + k·(60/bpm) : k ∈ ℤ} nearest to the input (ties
rounded away from zero), clamped into [0, trackLength] — whether or not
the sequence is empty, and with no separate `round(t/(60/bpm))`
fallback. -/
theorem quantizePosition_nearest_gridpoint (bpm off L t : ℚ) (hb : 0 < bpm) :
    quantizePosition true bpm off L t = cclamp (gridSnap bpm off t) 0 L ∧
    ∀ k : ℤ, |gridSnap bpm off t - t| ≤ |off + (k : ℚ) * (60 / bpm) - t| := by
  refine ⟨quantizePosition_eq_cclamp bpm off L t hb, fun k => ?_⟩
  have hp : 0 < 60 / bpm := by positivity
  have hxp : (t - off) / (60 / bpm) * (60 / bpm) = t - off :=
    div_mul_cancel₀ _ (ne_of_gt hp)
  have h1 : gridSnap bpm off t - t =
      ((croundQ ((t - off) / (60 / bpm)) : ℚ) - (t - off) / (60 / bpm)) * (60 / bpm) := by
    rw [gridSnap, sub_mul, hxp]; ring
  have h2 : off + (k : ℚ) * (60 / bpm) - t =
      ((k : ℚ) - (t - off) / (60 / bpm)) * (60 / bpm) := by
    rw [sub_mul, hxp]; ring
  rw [h1, h2, abs_mul, abs_mul, abs_of_pos hp]
  exact mul_le_mul_of_nonneg_right (croundQ_nearest _ k) hp.le

theorem quantizePosition_nearest_gridpoint_witness :
    |gridSnap 120 0 (3/10) - 3/10| ≤ |0 + ((3 : ℤ) : ℚ) * (60 / 120) - 3/10| :=
  (quantizePosition_nearest_gridpoint 120 0 10 (3/10) (by decide)).2 3

/-- C8 counterexample: with bpm = 120, firstBeatOffset = 0,
trackLength = 2.2 s, input 2.4 quantizes to 2.2 (grid point 2.5 clamped
to the track end), but quantizing 2.2 again yields the grid point 2, so
quantize is not idempotent for inputs beyond the track end. -/
theorem quantizePosition_idem_counterexample :
    quantizePosition true 120 0 (11/5) (quantizePosition true 120 0 (11/5) (12/5)) ≠
      quantizePosition true 120 0 (11/5) (12/5) := by
  have h1 : quantizePosition true 120 0 (11/5) (12/5) = 11/5 := by
    norm_num [quantizePosition, croundQ, cclamp]
  have h2 : quantizePosition true 120 0 (11/5) (11/5) = 2 := by
    norm_num [quantizePosition, croundQ, cclamp]
  rw [h1, h2]
  norm_num

/-- C8 (amended): the quantize operation is idempotent on every input
position inside the track, i.e. quantize(quantize(t)) = quantize(t) for
every bpm > 0, every firstBeatOffset, and every t with
0 ≤ t ≤ trackLength. -/
theorem quantizePosition_idem (bpm off L t : ℚ) (hb : 0 < bpm) (h0 : 0 ≤ t) (hL : t ≤ L) :
    quantizePosition true bpm off L (quantizePosition true bpm off L t) =
      quantizePosition true bpm off L t := by
  rw [quantizePosition_eq_cclamp bpm off L t hb,
    quantizePosition_eq_cclamp bpm off L _ hb]
  by_cases hlo : gridSnap bpm off t < 0
  · have hR : cclamp (gridSnap bpm off t) 0 L = 0 := by rw [cclamp, if_pos hlo]
    rw [hR]
    have hmono : gridSnap bpm off 0 ≤ gridSnap bpm off t := gridSnap_mono bpm off hb h0
    rw [cclamp, if_pos (by linarith)]
  · by_cases hhi : L < gridSnap bpm off t
    · have hR : cclamp (gridSnap bpm off t) 0 L = L := by
        rw [cclamp, if_neg hlo, if_pos hhi]
      rw [hR]
      have hmono : gridSnap bpm off t ≤ gridSnap bpm off L := gridSnap_mono bpm off hb hL
      rw [cclamp, if_neg (by linarith), if_pos (by linarith)]
    · have hR : cclamp (gridSnap bpm off t) 0 L = gridSnap bpm off t := by
        rw [cclamp, if_neg hlo, if_neg hhi]
      rw [hR, gridSnap_idem bpm off t hb, hR]

theorem quantizePosition_idem_witness :
    quantizePosition true 120 0 10 (quantizePosition true 120 0 10 0) =
      quantizePosition true 120 0 10 0 :=
  quantizePosition_idem 120 0 10 0 (by decide) le_rfl (by decide)

/-- C9: when quantization is enabled and the stored bpm is positive but
the stored track length is still its initial value 0, the quantize
operation returns 0 for every input position (the clamp into
[0, trackLength] collapses to the single point 0); in particular this
holds at the default bpm of 120. -/
theorem quantizePosition_zero_trackLength (bpm off t : ℚ) (hb : 0 < bpm) :
    quantizePosition true bpm off trackLengthSecDefault t = 0 ∧
    quantizePosition true trackBpmDefault off trackLengthSecDefault t = 0 := by
  have h : ∀ b : ℚ, 0 < b → quantizePosition true b off trackLengthSecDefault t = 0 := by
    intro b hb'
    rw [quantizePosition_eq_cclamp b off _ t hb', cclamp, trackLengthSecDefault]
    split_ifs with h1 h2
    · rfl
    · rfl
    · exact le_antisymm (not_lt.mp h2) (not_lt.mp h1)
  exact ⟨h bpm hb, h trackBpmDefault (by rw [trackBpmDefault]; decide)⟩

theorem quantizePosition_zero_trackLength_witness :
    quantizePosition true 7 (1/3) trackLengthSecDefault (-5) = 0 :=
  (quantizePosition_zero_trackLength 7 (1/3) (-5) (by decide)).1

/-! ## BPM analysis: scan-section selection (`BpmDSP::createScanSections`) -/

/-- Loop body of the short-track branch (≤ 90 s) of
`BpmDSP::createScanSections` (BpmAnalyzer.cpp:33-88) at loop index `i`:
window of length `0.4·d` starting at `i·(0.32·d)`, clipped to `d`, kept
only when at least 15 s long. -/
def shortSection (totalDuration : ℚ) (i : ℕ) : Option (ℚ × ℚ) :=
  let sectionLength := totalDuration * (2/5)
  let overlap := sectionLength * (1/5)
  let start := (i : ℚ) * (sectionLength - overlap)
  let e0 := start + sectionLength
  let e := if totalDuration < e0 then totalDuration else e0
  if 15 ≤ e - start then some (start, e) else none

/-- Loop body of the medium-track branch (90 s < d ≤ 240 s): a 35 s
window centred at `skip + pos·(d − 2·skip)` with `skip = min(25, 0.12·d)`,
start/end clipped into `[0, d]`, kept only when at least 20 s long. -/
def mediumSection (totalDuration pos : ℚ) : Option (ℚ × ℚ) :=
  let skip := min 25 (totalDuration * (12/100))
  let usableLength := totalDuration - 2 * skip
  let center := skip + pos * usableLength
  let start := max 0 (center - 35/2)
  let e := min totalDuration (center + 35/2)
  if 20 ≤ e - start then some (start, e) else none

/-- Loop body of the long-track branch (d > 240 s): a 40 s window centred
at `skip + pos·(d − 2·skip)` with `skip = min(45, 0.1·d)`, kept only when
it lies entirely inside `[0, d]` and is at least 25 s long. -/
def longSection (totalDuration pos : ℚ) : Option (ℚ × ℚ) :=
  let skip := min 45 (totalDuration * (1/10))
  let usableLength := totalDuration - 2 * skip
  let center := skip + pos * usableLength
  let start := center - 40/2
  let e := center + 40/2
  if 0 ≤ start ∧ e ≤ totalDuration ∧ 25 ≤ e - start then some (start, e) else none

/-- `BpmDSP::createScanSections` (BpmAnalyzer.cpp:33-88): the
duration-dependent selection of scan sections, with the loop bodies
hoisted into the three helpers above. -/
def createScanSections (totalDuration : ℚ) : List (ℚ × ℚ) :=
  if totalDuration ≤ 90 then
    (List.range 4).filterMap (shortSection totalDuration)
  else if totalDuration ≤ 240 then
    ([1/10, 3/10, 1/2, 7/10, 9/10] : List ℚ).filterMap (mediumSection totalDuration)
  else
    ([3/20, 3/10, 9/20, 3/5, 3/4, 9/10] : List ℚ).filterMap (longSection totalDuration)

theorem shortSection_three_none (d : ℚ) (hd : 0 < d) (h90 : d ≤ 90) :
    shortSection d 3 = none := by
  simp only [shortSection]
  norm_num
  intro h
  rw [if_pos (by linarith)] at h
  linarith

theorem mediumSection_eq (d pos : ℚ) (hd : 90 < d) (hp1 : 1/10 ≤ pos) (hp2 : pos ≤ 9/10) :
    mediumSection d pos =
      some (min 25 (d * (12/100)) + pos * (d - 2 * min 25 (d * (12/100))) - 35/2,
            min 25 (d * (12/100)) + pos * (d - 2 * min 25 (d * (12/100))) + 35/2) := by
  simp only [mediumSection]
  set s := min 25 (d * (12/100)) with hs
  have hs2 : s ≤ d * (12/100) := min_le_right _ _
  have hs3 : 54/5 < s := lt_min (by norm_num) (by linarith)
  have hd2s : 0 ≤ d - 2 * s := by linarith
  have hcl := mul_le_mul_of_nonneg_right hp1 hd2s
  have hcu := mul_le_mul_of_nonneg_right hp2 hd2s
  have hc1 : 35/2 ≤ s + pos * (d - 2 * s) := by linarith
  have hc2 : s + pos * (d - 2 * s) + 35/2 ≤ d := by linarith
  rw [max_eq_right (by linarith), min_eq_right (by linarith), if_pos (by linarith)]

theorem longSection_eq (d pos : ℚ) (hd : 240 < d) (hp1 : 3/20 ≤ pos) (hp2 : pos ≤ 9/10) :
    longSection d pos =
      some (min 45 (d * (1/10)) + pos * (d - 2 * min 45 (d * (1/10))) - 40/2,
            min 45 (d * (1/10)) + pos * (d - 2 * min 45 (d * (1/10))) + 40/2) := by
  simp only [longSection]
  set s := min 45 (d * (1/10)) with hs
  have hs2 : s ≤ d * (1/10) := min_le_right _ _
  have hs3 : 24 < s := lt_min (by norm_num) (by linarith)
  have hd2s : 0 ≤ d - 2 * s := by linarith
  have hcl := mul_le_mul_of_nonneg_right hp1 hd2s
  have hcu := mul_le_mul_of_nonneg_right hp2 hd2s
  have hc1 : 40/2 ≤ s + pos * (d - 2 * s) := by linarith
  have hc2 : s + pos * (d - 2 * s) + 40/2 ≤ d := by linarith
  rw [if_pos ⟨by linarith, by linarith, by linarith⟩]

/-- C4 counterexample: for a 60 s analysis duration the short-track
branch keeps only three sections — the fourth window (start 57.6 s,
clipped end 60 s) is 2.4 s long and fails the 15 s minimum — so the
claimed "exactly four overlapping scan sections" is false. -/
theorem createScanSections_sixty_counterexample :
    (createScanSections 60).length = 3 := by
  rw [createScanSections, if_pos (by norm_num),
    show List.range 4 = [0, 1, 2, 3] from rfl]
  norm_num [List.filterMap_cons, shortSection]

/-- C4 (amended): for 0 < d ≤ 90 the short-track branch attempts four
overlapping windows but keeps only those at least 15 s long, and the
fourth window never qualifies, so at most three sections are returned
(three for typical durations, fewer for very short ones); for
90 < d ≤ 240 exactly five sections are returned, each a 35 s window
centred at `skip + pos·(d − 2·skip)` for pos ∈ {0.1, 0.3, 0.5, 0.7, 0.9}
with `skip = min(25, 0.12·d)`; for d > 240 exactly six sections are
returned. -/
theorem createScanSections_counts (d : ℚ) (hd : 0 < d) :
    (d ≤ 90 → (createScanSections d).length ≤ 3) ∧
    (90 < d → d ≤ 240 →
      createScanSections d =
        ([1/10, 3/10, 1/2, 7/10, 9/10] : List ℚ).map (fun pos =>
          (min 25 (d * (12/100)) + pos * (d - 2 * min 25 (d * (12/100))) - 35/2,
           min 25 (d * (12/100)) + pos * (d - 2 * min 25 (d * (12/100))) + 35/2))) ∧
    (240 < d → (createScanSections d).length = 6) := by
  refine ⟨fun h90 => ?_, fun h90 h240 => ?_, fun h240 => ?_⟩
  · rw [createScanSections, if_pos h90,
      show List.range 4 = [0, 1, 2] ++ [3] from rfl, List.filterMap_append,
      List.length_append]
    have h3 : shortSection d 3 = none := shortSection_three_none d hd h90
    simp only [List.filterMap_cons, h3, List.filterMap_nil, List.length_nil]
    have := List.length_filterMap_le (shortSection d) [0, 1, 2]
    simpa using this
  · rw [createScanSections, if_neg (not_le.mpr h90), if_pos h240]
    have m1 := mediumSection_eq d (1/10) h90 (by norm_num) (by norm_num)
    have m2 := mediumSection_eq d (3/10) h90 (by norm_num) (by norm_num)
    have m3 := mediumSection_eq d (1/2) h90 (by norm_num) (by norm_num)
    have m4 := mediumSection_eq d (7/10) h90 (by norm_num) (by norm_num)
    have m5 := mediumSection_eq d (9/10) h90 (by norm_num) (by norm_num)
    simp only [List.filterMap_cons, m1, m2, m3, m4, m5, List.filterMap_nil,
      List.map_cons, List.map_nil]
  · rw [createScanSections, if_neg (by linarith), if_neg (not_le.mpr h240)]
    have l1 := longSection_eq d (3/20) h240 (by norm_num) (by norm_num)
    have l2 := longSection_eq d (3/10) h240 (by norm_num) (by norm_num)
    have l3 := longSection_eq d (9/20) h240 (by norm_num) (by norm_num)
    have l4 := longSection_eq d (3/5) h240 (by norm_num) (by norm_num)
    have l5 := longSection_eq d (3/4) h240 (by norm_num) (by norm_num)
    have l6 := longSection_eq d (9/10) h240 (by norm_num) (by norm_num)
    simp only [List.filterMap_cons, l1, l2, l3, l4, l5, l6, List.filterMap_nil]
    rfl

theorem createScanSections_counts_witness :
    (createScanSections 300).length = 6 :=
  (createScanSections_counts 300 (by decide)).2.2 (by decide)

/-! ## `DJAudioPlayer::setSpeed` -/

/-- `DJAudioPlayer::setSpeed` (DJAudioPlayer.cpp:912-930), its effect on
the stored `currentSpeed`: a ratio with `ratio < 0.0 || ratio > 100.0`
is rejected with a logged warning and leaves the store unchanged;
otherwise the ratio is stored as is. -/
def setSpeedStored (currentSpeed ratio : ℚ) : ℚ :=
  if ratio < 0 ∨ 100 < ratio then currentSpeed else ratio

/-- C7 counterexample: `setSpeed(0.0)` passes the range check
(`0.0 < 0.0 || 0.0 > 100.0` is false) and stores 0, so after the call
sequence [0] from the initial speed 1.0 the stored speed is 0 — the
claimed strict positivity invariant is violated by an accepted ratio. -/
theorem setSpeed_zero_counterexample :
    List.foldl setSpeedStored currentSpeedDefault [0] = 0 ∧
    ¬ 0 < List.foldl setSpeedStored currentSpeedDefault [0] := by
  constructor <;> norm_num [setSpeedStored, currentSpeedDefault]

/-- C7 (amended): starting from the initial speed 1.0, after any
sequence of setSpeed(ratio) calls the stored speed is nonnegative and at
most 100 (but not necessarily strictly positive, since ratio = 0 is
accepted): an out-of-range ratio (negative or above 100) is rejected
leaving the stored speed unchanged, and an accepted ratio is stored as
is, hence stays within [0, 100]. -/
theorem setSpeed_stored_range (rs : List ℚ) (s r : ℚ) :
    (0 ≤ List.foldl setSpeedStored currentSpeedDefault rs ∧
      List.foldl setSpeedStored currentSpeedDefault rs ≤ 100) ∧
    ((r < 0 ∨ 100 < r) → setSpeedStored s r = s) ∧
    (¬(r < 0 ∨ 100 < r) → setSpeedStored s r = r) := by
  refine ⟨?_, fun h => by rw [setSpeedStored, if_pos h],
    fun h => by rw [setSpeedStored, if_neg h]⟩
  have key : ∀ (l : List ℚ) (a : ℚ), 0 ≤ a → a ≤ 100 →
      0 ≤ List.foldl setSpeedStored a l ∧ List.foldl setSpeedStored a l ≤ 100 := by
    intro l
    induction l with
    | nil => intro a h1 h2; exact ⟨h1, h2⟩
    | cons x xs ih =>
      intro a h1 h2
      simp only [List.foldl_cons]
      by_cases hx : x < 0 ∨ 100 < x
      · rw [setSpeedStored, if_pos hx]
        exact ih a h1 h2
      · rw [setSpeedStored, if_neg hx]
        push_neg at hx
        exact ih x hx.1 hx.2
  exact key rs currentSpeedDefault (by norm_num [currentSpeedDefault])
    (by norm_num [currentSpeedDefault])

theorem setSpeed_stored_range_witness : setSpeedStored 5 200 = 5 :=
  (setSpeed_stored_range [5, 200] 5 200).2.1 (Or.inr (by decide))

/-! ## `DJAudioPlayer::enableLoop` / `disableLoop` -/

/-- The loop-region fields of `DJAudioPlayer`:
`loopEnabled`, `loopStartSec`, `loopEndSec`. -/
structure LoopState where
  enabled : Bool
  startSec : ℚ
  endSec : ℚ
deriving DecidableEq

/-- `DJAudioPlayer::disableLoop` (DJAudioPlayer.cpp:1187-1191). -/
def disableLoop : LoopState := ⟨false, 0, 0⟩

/-- `DJAudioPlayer::enableLoop` (DJAudioPlayer.cpp:1171-1185): `len` is
`transportSource.getLengthInSeconds()`; the previous loop state `st` is
overwritten entirely. -/
def enableLoop (st : LoopState) (len startSec lengthSec : ℚ) : LoopState :=
  if lengthSec ≤ 0 then disableLoop
  else
    let s := max 0 (min startSec len)
    let e := max s (min (s + lengthSec) len)
    ⟨decide (s < e), s, e⟩

/-- C10: `enableLoop(startSec, lengthSec)` with `lengthSec ≤ 0` behaves
exactly like `disableLoop` (loop disabled, both bounds 0) regardless of
the previous loop state and of startSec; with `lengthSec > 0` the stored
bounds are clamped into [0, track length] and the loop is enabled iff
(in particular only if) the clamped end exceeds the clamped start. -/
theorem enableLoop_spec (st : LoopState) (len startSec lengthSec : ℚ) (hlen : 0 ≤ len) :
    (lengthSec ≤ 0 → enableLoop st len startSec lengthSec = disableLoop) ∧
    (0 < lengthSec →
      0 ≤ (enableLoop st len startSec lengthSec).startSec ∧
      (enableLoop st len startSec lengthSec).startSec ≤ len ∧
      0 ≤ (enableLoop st len startSec lengthSec).endSec ∧
      (enableLoop st len startSec lengthSec).endSec ≤ len ∧
      ((enableLoop st len startSec lengthSec).enabled = true ↔
        (enableLoop st len startSec lengthSec).startSec <
          (enableLoop st len startSec lengthSec).endSec)) := by
  constructor
  · intro h
    rw [enableLoop, if_pos h]
  · intro h
    simp only [enableLoop, if_neg (not_le.mpr h)]
    have hs0 : (0 : ℚ) ≤ max 0 (min startSec len) := le_max_left _ _
    have hsl : max 0 (min startSec len) ≤ len := max_le hlen (min_le_right _ _)
    refine ⟨hs0, hsl, le_trans hs0 (le_max_left _ _), max_le hsl (min_le_right _ _), ?_⟩
    exact decide_eq_true_iff

theorem enableLoop_spec_witness :
    enableLoop ⟨true, 1, 2⟩ 180 3 (-1) = disableLoop :=
  (enableLoop_spec ⟨true, 1, 2⟩ 180 3 (-1) (by decide)).1 (by decide)

/-! ## Loop-boundary crossfade decision (`DJAudioPlayer::getNextAudioBlock`,
DJAudioPlayer.cpp:197-346) -/

/-- The block-straddles-loop-end test of the render callback:
`pos < loopEndSec && nextPos >= loopEndSec && loopEndSec > loopStartSec`. -/
def loopStraddle (pos nextPos loopStart loopEnd : ℚ) : Prop :=
  pos < loopEnd ∧ loopEnd ≤ nextPos ∧ loopStart < loopEnd

/-- `samplesToLoopEnd`: `(int)(timeToLoopEnd * currentSampleRate)` then
`std::max(0, std::min(samplesToLoopEnd, bufferToFill.numSamples))`. -/
def samplesToLoopEnd (pos loopEnd sampleRate : ℚ) (numSamples : ℤ) : ℤ :=
  max 0 (min (ctruncQ ((loopEnd - pos) * sampleRate)) numSamples)

/-- `crossfadeLength = std::min(1024, std::min(samplesToLoopEnd,
bufferToFill.numSamples / 2))` (C `int` division truncates). -/
def crossfadeLength (sEnd numSamples : ℤ) : ℤ :=
  min 1024 (min sEnd (numSamples.tdiv 2))

/-- Which of the two loop-boundary fade paths runs for a straddling
block. -/
inductive LoopFadeKind where
  | crossfade
  | shortFade
deriving DecidableEq

/-- The branch `if (crossfadeLength >= 16 && samplesToLoopEnd >= crossfadeLength)`
choosing between the equal-power crossfade and the short fallback fade. -/
def loopFadeChoice (sEnd numSamples : ℤ) : LoopFadeKind :=
  if 16 ≤ crossfadeLength sEnd numSamples ∧ crossfadeLength sEnd numSamples ≤ sEnd then
    LoopFadeKind.crossfade
  else LoopFadeKind.shortFade

/-- The sample written at output index `j` by the equal-power crossfade
branch: the tail block is copied whole, indices in
`[fadeStart, fadeStart + len)` are blended as
`tail[j]·endGain(i) + head[i]·startGain(i)` with `i = j − fadeStart`,
and the remainder from `fadeStart + len` on is pure head audio at head
index `j − fadeStart` (the code reads `startBuffer[crossfadeLength + i]`
there). Polymorphic in the sample type so that the gain curves can be
instantiated over `ℝ`. -/
def crossfadeOutput {α : Type} [Ring α] (tail head endGain startGain : ℤ → α)
    (fadeStart len numSamples : ℤ) (j : ℤ) : α :=
  if fadeStart ≤ j ∧ j < fadeStart + len ∧ 0 ≤ j ∧ j < numSamples then
    tail j * endGain (j - fadeStart) + head (j - fadeStart) * startGain (j - fadeStart)
  else if fadeStart + len ≤ j ∧ j < numSamples ∧ 0 ≤ fadeStart + len then
    head (j - fadeStart)
  else tail j

/-- C6: for a render block straddling the loop end, the chosen crossfade
length is `min(1024, samplesToLoopEnd, numSamples/2)`; the equal-power
crossfade runs iff that length is ≥ 16 and fits within
samples-to-loop-end — and the fit condition is automatic, so the
decision reduces to the 16-sample minimum — otherwise the short fallback
fade runs; and the crossfade output is pure tail before the fade window,
the Hann-driven cos/sin equal-power blend (gains squaring to 1) inside
it, and pure head after it. -/
theorem loopCrossfade_decision (pos nextPos loopStart loopEnd sampleRate : ℚ)
    (numSamples : ℤ) (tail head : ℤ → ℝ) (j : ℤ)
    (hstraddle : loopStraddle pos nextPos loopStart loopEnd)
    (hn : 0 < numSamples) :
    crossfadeLength (samplesToLoopEnd pos loopEnd sampleRate numSamples) numSamples =
      min 1024 (min (samplesToLoopEnd pos loopEnd sampleRate numSamples) (numSamples.tdiv 2)) ∧
    crossfadeLength (samplesToLoopEnd pos loopEnd sampleRate numSamples) numSamples ≤
      samplesToLoopEnd pos loopEnd sampleRate numSamples ∧
    (loopFadeChoice (samplesToLoopEnd pos loopEnd sampleRate numSamples) numSamples =
        LoopFadeKind.crossfade ↔
      (16 ≤ crossfadeLength (samplesToLoopEnd pos loopEnd sampleRate numSamples) numSamples ∧
        crossfadeLength (samplesToLoopEnd pos loopEnd sampleRate numSamples) numSamples ≤
          samplesToLoopEnd pos loopEnd sampleRate numSamples)) ∧
    (loopFadeChoice (samplesToLoopEnd pos loopEnd sampleRate numSamples) numSamples =
        LoopFadeKind.crossfade ↔
      16 ≤ crossfadeLength (samplesToLoopEnd pos loopEnd sampleRate numSamples) numSamples) ∧
    (¬ 16 ≤ crossfadeLength (samplesToLoopEnd pos loopEnd sampleRate numSamples) numSamples →
      loopFadeChoice (samplesToLoopEnd pos loopEnd sampleRate numSamples) numSamples =
        LoopFadeKind.shortFade) ∧
    (∀ (fadeStart len : ℤ) (eg sg : ℤ → ℝ), 0 ≤ len →
      (0 ≤ j → j < fadeStart →
        crossfadeOutput tail head eg sg fadeStart len numSamples j = tail j) ∧
      (fadeStart + len ≤ j → j < numSamples → 0 ≤ fadeStart + len →
        crossfadeOutput tail head eg sg fadeStart len numSamples j = head (j - fadeStart)) ∧
      (fadeStart ≤ j → j < fadeStart + len → 0 ≤ j → j < numSamples →
        crossfadeOutput tail head eg sg fadeStart len numSamples j =
          tail j * eg (j - fadeStart) + head (j - fadeStart) * sg (j - fadeStart))) ∧
    (∀ i : ℤ,
      Real.cos ((1 - Real.cos ((i : ℝ) * Real.pi)) / 2 * (Real.pi / 2)) ^ 2 +
        Real.sin ((1 - Real.cos ((i : ℝ) * Real.pi)) / 2 * (Real.pi / 2)) ^ 2 = 1) := by
  have hfit : crossfadeLength (samplesToLoopEnd pos loopEnd sampleRate numSamples) numSamples ≤
      samplesToLoopEnd pos loopEnd sampleRate numSamples :=
    le_trans (min_le_right _ _) (min_le_left _ _)
  have hiff : loopFadeChoice (samplesToLoopEnd pos loopEnd sampleRate numSamples) numSamples =
      LoopFadeKind.crossfade ↔
      (16 ≤ crossfadeLength (samplesToLoopEnd pos loopEnd sampleRate numSamples) numSamples ∧
        crossfadeLength (samplesToLoopEnd pos loopEnd sampleRate numSamples) numSamples ≤
          samplesToLoopEnd pos loopEnd sampleRate numSamples) := by
    rw [loopFadeChoice]
    split_ifs with h
    · simp [h]
    · simp [h]
  refine ⟨rfl, hfit, hiff, ?_, ?_, ?_, fun i => Real.cos_sq_add_sin_sq _⟩
  · rw [hiff]
    exact ⟨fun h => h.1, fun h => ⟨h, hfit⟩⟩
  · intro h16
    rw [loopFadeChoice, if_neg (fun hc => h16 hc.1)]
  · intro fadeStart len eg sg hlen
    refine ⟨fun hj0 hjf => ?_, fun hj1 hj2 hj3 => ?_, fun hj1 hj2 hj3 hj4 => ?_⟩
    · rw [crossfadeOutput, if_neg (fun hc => absurd hc.1 (not_le.mpr hjf)),
        if_neg (fun hc => absurd hc.1 (not_le.mpr (by linarith)))]
    · rw [crossfadeOutput, if_neg (fun hc => absurd hc.2.1 (not_lt.mpr hj1)),
        if_pos ⟨hj1, hj2, hj3⟩]
    · rw [crossfadeOutput, if_pos ⟨hj1, hj2, hj3, hj4⟩]

theorem loopCrossfade_decision_witness :
    loopFadeChoice (samplesToLoopEnd 0 1 44100 1024) 1024 =
        LoopFadeKind.crossfade ↔
      16 ≤ crossfadeLength (samplesToLoopEnd 0 1 44100 1024) 1024 :=
  (loopCrossfade_decision 0 2 0 1 44100 1024 (fun _ => 0) (fun _ => 0) 0
    ⟨zero_lt_one, by decide, zero_lt_one⟩ (by decide)).2.2.2.1

/-! ## Render-block control flow of `DJAudioPlayer::getNextAudioBlock`
(DJAudioPlayer.cpp:96-662): which source path fills a block, and how the
RubberBand ready flag evolves, including the exception path at
lines 628-639. -/

/-- The mutable player fields relevant to the stretch-path selection:
`rbReady`, `keylockEnabled`, `pausedResetPending`. -/
structure RbState where
  rbReady : Bool
  keylockEnabled : Bool
  pausedResetPending : Bool
deriving DecidableEq

/-- Per-block inputs of one `getNextAudioBlock` call: the deferred
keylock toggle mailbox (`keylockChangePending`: none = -1, some true = 1,
some false = 0), the flags read that block, whether one of the loop
branches consumes the whole block, and an oracle `rbThrows` telling
whether the RubberBand processing in the `try` block throws. -/
structure BlockCtx where
  readerPresent : Bool
  keylockChangePending : Option Bool
  forceSilent : Bool
  softPaused : Bool
  transportPlaying : Bool
  loopEnabled : Bool
  loopConsumed : Bool
  rbPresent : Bool
  hintsReady : Bool
  outChannelsPositive : Bool
  priming : Bool
  nearUnity : Bool
  rbThrows : Bool
deriving DecidableEq

/-- How one render block obtains (or does not obtain) its samples.
`silentBlock` stands for `clearActiveBufferRegion` (all-zero output);
`plainResample` is the non-RubberBand else-branch
(`resampleSource.setResamplingRatio(currentSpeed); getNextAudioBlock`). -/
inductive BlockOutcome where
  | silentBlock
  | loopBlock
  | rbPassThrough
  | rbBypassResample
  | rbStretch
  | fallbackResample
  | plainResample
deriving DecidableEq

/-- The deferred keylock toggle applied at the start of the block
(`keylockChangePending.exchange(-1)`): enabling sets
`keylockEnabled = true` and (re)arms RubberBand (`rbReady = true`);
disabling only clears `keylockEnabled`. -/
def applyPendingKeylock (st : RbState) (pending : Option Bool) : RbState :=
  match pending with
  | none => st
  | some true => { st with keylockEnabled := true, rbReady := true }
  | some false => { st with keylockEnabled := false }

/-- The part of one `getNextAudioBlock` call after the deferred keylock
toggle has been applied; `st1` is the state at that point. In the
not-playing branch `pausedResetPending.exchange(false)` re-arms
RubberBand when it was set. In the keylock-active `try` block an
exception (`rbThrows`) clears the buffer and sets `rbReady = false`. -/
def renderBlockAfterToggle (st1 : RbState) (c : BlockCtx) : BlockOutcome × RbState :=
  if c.forceSilent || c.softPaused then (BlockOutcome.silentBlock, st1)
  else if c.transportPlaying = false then
    (BlockOutcome.silentBlock,
      { st1 with
          pausedResetPending := false
          rbReady := if st1.pausedResetPending then true else st1.rbReady })
  else if c.loopEnabled && c.loopConsumed then (BlockOutcome.loopBlock, st1)
  else if st1.rbReady && c.rbPresent then
    if c.hintsReady = false then (BlockOutcome.fallbackResample, st1)
    else if c.outChannelsPositive = false then (BlockOutcome.silentBlock, st1)
    else if c.priming && st1.keylockEnabled then (BlockOutcome.silentBlock, st1)
    else if st1.keylockEnabled = false then (BlockOutcome.rbPassThrough, st1)
    else if c.nearUnity then (BlockOutcome.rbBypassResample, st1)
    else if c.rbThrows then (BlockOutcome.silentBlock, { st1 with rbReady := false })
    else (BlockOutcome.rbStretch, st1)
  else (BlockOutcome.plainResample, st1)

/-- One `getNextAudioBlock` call: the branch structure of
DJAudioPlayer.cpp:96-662 reduced to the outcome of the block and the
state after it. -/
def renderBlock (st : RbState) (c : BlockCtx) : BlockOutcome × RbState :=
  if c.readerPresent = false then (BlockOutcome.silentBlock, st)
  else renderBlockAfterToggle (applyPendingKeylock st c.keylockChangePending) c

/-- A sequence of render blocks, producing the outcome of each and the
final state. -/
def renderBlocks (st : RbState) (cs : List BlockCtx) : List BlockOutcome × RbState :=
  match cs with
  | [] => ([], st)
  | c :: rest =>
    let r := renderBlock st c
    let rs := renderBlocks r.2 rest
    (r.1 :: rs.1, rs.2)

theorem applyPendingKeylock_notReady (st : RbState) (p : Option Bool)
    (h1 : st.rbReady = false) (hp : p ≠ some true) :
    (applyPendingKeylock st p).rbReady = false ∧
    (applyPendingKeylock st p).pausedResetPending = st.pausedResetPending ∧
    (applyPendingKeylock st p).keylockEnabled =
      (applyPendingKeylock st p).keylockEnabled := by
  cases p with
  | none => exact ⟨h1, rfl, rfl⟩
  | some b =>
    cases b with
    | true => exact absurd rfl hp
    | false => exact ⟨h1, rfl, rfl⟩

theorem renderBlockAfterToggle_notReady (st1 : RbState) (c : BlockCtx)
    (h1 : st1.rbReady = false) (h2 : st1.pausedResetPending = false) :
    ((renderBlockAfterToggle st1 c).1 = BlockOutcome.silentBlock ∨
      (renderBlockAfterToggle st1 c).1 = BlockOutcome.loopBlock ∨
      (renderBlockAfterToggle st1 c).1 = BlockOutcome.plainResample) ∧
    (renderBlockAfterToggle st1 c).2.rbReady = false ∧
    (renderBlockAfterToggle st1 c).2.pausedResetPending = false := by
  rw [renderBlockAfterToggle]
  by_cases hfs : (c.forceSilent || c.softPaused) = true
  · rw [if_pos hfs]
    exact ⟨Or.inl rfl, h1, h2⟩
  · rw [if_neg hfs]
    by_cases hplay : c.transportPlaying = false
    · rw [if_pos hplay]
      exact ⟨Or.inl rfl, by simp [h1, h2], rfl⟩
    · rw [if_neg hplay]
      by_cases hloop : (c.loopEnabled && c.loopConsumed) = true
      · rw [if_pos hloop]
        exact ⟨Or.inr (Or.inl rfl), h1, h2⟩
      · rw [if_neg hloop, if_neg (by simp [h1])]
        exact ⟨Or.inr (Or.inr rfl), h1, h2⟩

theorem renderBlock_notReady (st : RbState) (c : BlockCtx)
    (h1 : st.rbReady = false) (h2 : st.pausedResetPending = false)
    (h3 : c.keylockChangePending ≠ some true) :
    ((renderBlock st c).1 = BlockOutcome.silentBlock ∨
      (renderBlock st c).1 = BlockOutcome.loopBlock ∨
      (renderBlock st c).1 = BlockOutcome.plainResample) ∧
    (renderBlock st c).2.rbReady = false ∧
    (renderBlock st c).2.pausedResetPending = false := by
  obtain ⟨hA1, hA2, -⟩ := applyPendingKeylock_notReady st c.keylockChangePending h1 h3
  rw [renderBlock]
  by_cases hr : c.readerPresent = false
  · rw [if_pos hr]
    exact ⟨Or.inl rfl, h1, h2⟩
  · rw [if_neg hr]
    exact renderBlockAfterToggle_notReady _ c hA1 (by rw [hA2]; exact h2)

theorem renderBlocks_notReady (cs : List BlockCtx) :
    ∀ st : RbState, st.rbReady = false → st.pausedResetPending = false →
      (∀ c' ∈ cs, c'.keylockChangePending ≠ some true) →
      (∀ o ∈ (renderBlocks st cs).1,
        o = BlockOutcome.silentBlock ∨ o = BlockOutcome.loopBlock ∨
          o = BlockOutcome.plainResample) ∧
      (renderBlocks st cs).2.rbReady = false := by
  induction cs with
  | nil => intro st h1 _ _; exact ⟨fun o ho => absurd ho (List.not_mem_nil o), h1⟩
  | cons c rest ih =>
    intro st h1 h2 h3
    have hb := renderBlock_notReady st c h1 h2 (h3 c (List.mem_cons_self c rest))
    have hr := ih (renderBlock st c).2 hb.2.1 hb.2.2
      (fun c' hc' => h3 c' (List.mem_cons_of_mem c hc'))
    rw [renderBlocks]
    refine ⟨fun o ho => ?_, hr.2⟩
    rcases List.mem_cons.mp ho with rfl | ho
    · exact hb.1
    · exact hr.1 o ho

/-- C5: if an exception is thrown inside the keylock (RubberBand)
processing path of a render block, then that block's outcome is silence
(`clearActiveBufferRegion`), `rbReady` is false after the block, and
every subsequent block — until a keylock-enable toggle or a
paused-reset re-arms the engine — either emits silence, is consumed by
the loop handler, or obtains its samples through the plain resampling
else-branch; none of them touches the stretch engine, and `rbReady`
stays false throughout. -/
theorem renderBlock_exception_fallback (st : RbState) (c : BlockCtx) (cs : List BlockCtx)
    (hreader : c.readerPresent = true)
    (hfs : c.forceSilent = false) (hsp : c.softPaused = false)
    (hplay : c.transportPlaying = true)
    (hloop : (c.loopEnabled && c.loopConsumed) = false)
    (hready : (applyPendingKeylock st c.keylockChangePending).rbReady = true)
    (hrb : c.rbPresent = true) (hhints : c.hintsReady = true)
    (hch : c.outChannelsPositive = true)
    (hkl : (applyPendingKeylock st c.keylockChangePending).keylockEnabled = true)
    (hprime : c.priming = false) (hnu : c.nearUnity = false)
    (hthrow : c.rbThrows = true)
    (hprp : st.pausedResetPending = false)
    (hnoreinit : ∀ c' ∈ cs, c'.keylockChangePending ≠ some true) :
    (renderBlock st c).1 = BlockOutcome.silentBlock ∧
    (renderBlock st c).2.rbReady = false ∧
    (∀ o ∈ (renderBlocks (renderBlock st c).2 cs).1,
      o = BlockOutcome.silentBlock ∨ o = BlockOutcome.loopBlock ∨
        o = BlockOutcome.plainResample) ∧
    (renderBlocks (renderBlock st c).2 cs).2.rbReady = false := by
  have hblock : renderBlock st c =
      (BlockOutcome.silentBlock,
        { applyPendingKeylock st c.keylockChangePending with rbReady := false }) := by
    rw [renderBlock, if_neg (by simp [hreader]), renderBlockAfterToggle]
    rw [if_neg (by simp [hfs, hsp])]
    rw [if_neg (by simp [hplay])]
    rw [if_neg (by simp [hloop])]
    rw [if_pos (by rw [hready, hrb]; rfl)]
    rw [if_neg (by simp [hhints])]
    rw [if_neg (by simp [hch])]
    rw [if_neg (by simp [hprime])]
    rw [if_neg (by simp [hkl])]
    rw [if_neg (by simp [hnu])]
    rw [if_pos hthrow]
  have hprp' : (renderBlock st c).2.pausedResetPending = false := by
    rw [hblock]
    cases hp : c.keylockChangePending with
    | none => simp [applyPendingKeylock, hp, hprp]
    | some b => cases b <;> simp [applyPendingKeylock, hp, hprp]
  have hready' : (renderBlock st c).2.rbReady = false := by rw [hblock]
  have hrest := renderBlocks_notReady cs (renderBlock st c).2 hready' hprp' hnoreinit
  exact ⟨by rw [hblock], hready', hrest.1, hrest.2⟩

theorem renderBlock_exception_fallback_witness :
    (renderBlock ⟨true, true, false⟩
        ⟨true, none, false, false, true, false, false, true, true, true, false, false, true⟩).1 =
      BlockOutcome.silentBlock ∧
    (renderBlock ⟨true, true, false⟩
        ⟨true, none, false, false, true, false, false, true, true, true, false, false, true⟩).2.rbReady =
      false :=
  ⟨(renderBlock_exception_fallback ⟨true, true, false⟩
      ⟨true, none, false, false, true, false, false, true, true, true, false, false, true⟩
      [] rfl rfl rfl rfl rfl rfl rfl rfl rfl rfl rfl rfl rfl rfl
      (fun c' hc' => absurd hc' (List.not_mem_nil c'))).1,
   (renderBlock_exception_fallback ⟨true, true, false⟩
      ⟨true, none, false, false, true, false, false, true, true, true, false, false, true⟩
      [] rfl rfl rfl rfl rfl rfl rfl rfl rfl rfl rfl rfl rfl rfl
      (fun c' hc' => absurd hc' (List.not_mem_nil c'))).2.1⟩

end PulseDJ
